import Mathlib

/-!
Verification development for the incremental analysis-and-cache pipeline of
the CodeAnchor CLI.

The embedding is shallow.  Asynchronous functions over the file system and
the ts-morph parser become pure Lean functions over an explicit `World`
record that models the observable state: file contents as read by
`fs.readFile` (`none` models a read failure), modification times as
returned by `fs.stat` (`none` models a failed stat, i.e. a missing file),
the per-file result of ts-morph import resolution (`none` models a thrown
error inside the resolution, one list entry per import declaration, with
`none` entries for declarations whose module specifier did not resolve to a
source file), the SHA-256 digest as an abstract function on strings, and
the persisted cache directory as a map from source path to the parsed
cache entry (`none` models a missing or unparseable cache file; the
path-digest keying of the real cache directory is injective on paths, so
the store is keyed by the source path directly).  Timestamps are natural
numbers standing for milliseconds.  Exceptions in the sources become
`Except` values or `Option` results at exactly the places the sources can
throw; `try`/`catch` blocks become matches on those values.
-/

namespace CodeAnchor

/-- One entry of `ComponentStructure.props` (src/core/cache-manager.ts). -/
structure StructProp where
  name : String
  type : String
  required : Bool
  description : Option String
deriving DecidableEq

/-- `ComponentStructure` from src/core/cache-manager.ts. -/
structure ComponentStructure where
  name : String
  props : List StructProp
deriving DecidableEq

/-- `DependencyCache` from src/core/cache-manager.ts: the snapshot of one
direct dependency taken at save time. -/
structure DependencyCache where
  path : String
  hash : String
  mtime : Nat
deriving DecidableEq

/-- `CacheEntry` from src/core/cache-manager.ts.  The `structure` field of
the source is called `struct` here because `structure` is reserved in Lean.
`lastParsed` is the stored `Date` viewed through `getTime()`. -/
structure CacheEntry where
  fileHash : String
  dependencies : List DependencyCache
  struct : ComponentStructure
  lastParsed : Nat
  version : String
deriving DecidableEq

/-- The running format version (`private version = '1.0.0'`). -/
def cacheVersion : String := "1.0.0"

/-- Observable state of the file system, the parser and the persisted
cache directory, as described in the module docstring. -/
structure World where
  read : String → Option String
  statMtime : String → Option Nat
  resolvedImports : String → Option (List (Option String))
  sha256 : String → String
  store : String → Option CacheEntry

/-- `pat` is an initial segment of `s` (character lists). -/
def charsStart (pat : List Char) (s : List Char) : Bool :=
  match pat, s with
  | [], _ => true
  | _ :: _, [] => false
  | a :: ps, b :: ss => a = b && charsStart ps ss

/-- `pat` occurs somewhere in `s` (character lists). -/
def charsHasSub (pat : List Char) : List Char → Bool
  | [] => charsStart pat []
  | c :: t => charsStart pat (c :: t) || charsHasSub pat t

/-- True when `pat` occurs in `s` as a substring; models
`String.prototype.includes`. -/
def hasSubstr (s pat : String) : Bool :=
  charsHasSub pat.toList s.toList

/-- The filter applied to every resolved import path in both
`DependencyAwareCacheManager.extractImports` and
`ComponentAnalyzer.extractDependencies`:
`!path.includes('node_modules') && !path.includes('@types')`. -/
def isLocalPath (p : String) : Bool :=
  !(hasSubstr p "node_modules") && !(hasSubstr p "@types")

/-- The shared loop body of `extractImports` (cache manager) and
`extractDependencies` (analyzer): for each import declaration, if the
module specifier resolved to a source file and its path passes
`isLocalPath`, push the path.  No de-duplication is performed. -/
def collectLocalImports : List (Option String) → List String
  | [] => []
  | none :: rest => collectLocalImports rest
  | some q :: rest =>
    if isLocalPath q then q :: collectLocalImports rest
    else collectLocalImports rest

/-- `DependencyAwareCacheManager.extractImports`.  The whole body is inside
a `try`; on any thrown error the source logs and returns the empty list,
which is the `none` branch here. -/
def extractImports (w : World) (p : String) : List String :=
  match w.resolvedImports p with
  | some rs => collectLocalImports rs
  | none => []

/-- `DependencyAwareCacheManager.hashFile`.  The source catches any read
error, logs it, and returns the empty string instead of failing. -/
def hashFile (w : World) (p : String) : String :=
  match w.read p with
  | some content => w.sha256 content
  | none => ""

/-- `DependencyAwareCacheManager.loadCache`: read and parse the cache file
(`none` on failure), then drop the entry when its stored version differs
from the running version. -/
def loadCache (w : World) (p : String) : Option CacheEntry :=
  match w.store p with
  | some c => if c.version = cacheVersion then some c else none
  | none => none

/-- The dependency loop of `DependencyAwareCacheManager.needsUpdate`: for
each live import, a failed stat (missing dependency) is skipped via
`continue`; otherwise the loop returns true as soon as the import is
absent from the stored snapshot or its current mtime exceeds
`lastParsed`. -/
def dependencyStale (w : World) (c : CacheEntry) : List String → Bool
  | [] => false
  | imp :: rest =>
    match w.statMtime imp with
    | none => dependencyStale w c rest
    | some mt =>
      if (c.dependencies.find? fun d => d.path = imp) = none ∨ c.lastParsed < mt
      then true
      else dependencyStale w c rest

/-- `DependencyAwareCacheManager.needsUpdate`.  The `try`/`catch` around
the dependency loop of the source can only catch exceptions of operations
that are total in this model (`Array.prototype.find`, `Date` parsing):
`extractImports` already absorbs every parser and I/O error internally and
`fs.stat` carries its own `.catch(() => null)`, so the catch branch
(`return true`) is unreachable for those error classes and has no
counterpart here. -/
def needsUpdate (w : World) (p : String) : Bool :=
  match loadCache w p with
  | none => true
  | some cache =>
    if hashFile w p ≠ cache.fileHash then true
    else dependencyStale w cache (extractImports w p)

/-- `DependencyAwareCacheManager.saveCache`, returning the updated world.
The snapshot list is built with `fs.stat(imp)` calls that are NOT guarded
by a catch: if any live import fails to stat, the `Promise.all` rejects,
the outer catch logs and swallows, and no cache file is written.  The
model lets `fs.mkdir` and `fs.writeFile` succeed; a failed write would
likewise leave the store unchanged. -/
def saveCache (w : World) (now : Nat) (p : String) (st : ComponentStructure) :
    World :=
  let imports := extractImports w p
  if imports.all fun i => (w.statMtime i).isSome then
    let deps := imports.map fun i =>
      { path := i, hash := hashFile w i,
        mtime := (w.statMtime i).getD 0 : DependencyCache }
    { w with store := fun q =>
        if q = p then
          some { fileHash := hashFile w p, dependencies := deps,
                 struct := st, lastParsed := now, version := cacheVersion }
        else w.store q }
  else w

/-! ### Component analyzer (src/analyzers/component-analyzer.ts)

The analyzer claims concern `extractComponentName` and
`extractDependencies`.  The exported declarations of a source file are
modeled as the list of identifier keys of `getExportedDeclarations()` in
iteration order, and the import declarations as the same per-declaration
resolution list used by the cache manager. -/

/-- The test `/^[A-Z]/.test(name)` of `extractComponentName`: the first
character exists and is an ASCII capital. -/
def headIsUpper (n : String) : Bool :=
  match n.toList with
  | [] => false
  | c :: _ => c.isUpper

/-- The per-name test of the loop in `extractComponentName`: the iteration
skips the key `default` (`continue`) and returns the first remaining name
passing `/^[A-Z]/`. -/
def isComponentName (n : String) : Bool :=
  (n != "default") && headIsUpper n

/-- Characters of the reversed input up to (excluding) the first slash. -/
def takeUntilSlash : List Char → List Char
  | [] => []
  | c :: rest => if c = '/' then [] else c :: takeUntilSlash rest

/-- `path.basename` on a file path: the part after the last slash. -/
def basename (p : String) : String :=
  String.mk (takeUntilSlash p.toList.reverse).reverse

/-- The fallback `basename.replace(/\.(tsx?|jsx?)$/, '')`: strip one
trailing `.ts`, `.tsx`, `.js` or `.jsx` extension if present.  The
trailing-anchor test is done on the reversed character list. -/
def stripKnownExt (s : String) : String :=
  let r := s.toList.reverse
  if charsStart ".tsx".toList.reverse r then String.mk (r.drop 4).reverse
  else if charsStart ".jsx".toList.reverse r then String.mk (r.drop 4).reverse
  else if charsStart ".ts".toList.reverse r then String.mk (r.drop 3).reverse
  else if charsStart ".js".toList.reverse r then String.mk (r.drop 3).reverse
  else s

/-- `ComponentAnalyzer.extractComponentName`: first exported identifier
passing the component-name test, else the base name of the file with a
known extension stripped. -/
def extractComponentName (exports : List String) (filePath : String) :
    String :=
  match exports.find? isComponentName with
  | some n => n
  | none => stripKnownExt (basename filePath)

/-- `ComponentAnalyzer.extractDependencies`: same loop as the cache
manager's `extractImports` over the import declarations of the file —
resolved local paths are pushed in declaration order, without
de-duplication. -/
def extractDependencies (resolutions : List (Option String)) : List String :=
  collectLocalImports resolutions

/-! ### Pre-commit handler (src/git/pre-commit-handler.ts)

`PreCommitHandler.run` drives the batch; its collaborators (config loader,
git utilities, analyzer, doc generator) are modeled as `Except`-valued
fields of an environment, `Except.error` standing for a thrown exception.
`cacheManager.needsUpdate` and `cacheManager.saveCache` never throw (every
failure is absorbed inside the cache manager, see above), so they appear
as a total boolean test and as an absorbed side effect. -/

/-- The slice of the loaded configuration the handler reads: the compiled
watch-pattern test used to filter staged files. -/
structure HookConfig where
  watchMatch : String → Bool

/-- Metadata produced by `ComponentAnalyzer.analyze` as consumed by the
handler. -/
structure ComponentMeta where
  name : String
  filePath : String
  props : List StructProp
  dependencies : List String
  hasJSDoc : Bool

/-- Collaborators of `PreCommitHandler.run`; each `Except` models an
awaited call that may throw. -/
structure HookEnv where
  loadConfig : Except String HookConfig
  getStagedFiles : Except String (List String)
  initProject : Except String Unit
  needsUpdate : String → Bool
  analyze : String → Except String ComponentMeta
  generateToFile : String → ComponentMeta → Except String Unit
  stageFile : String → Except String Unit

/-- `PreCommitResult` without the wall-clock `duration` field, which no
claim mentions. -/
structure PreCommitResult where
  processed : Nat
  skipped : Nat
  errors : Nat
deriving DecidableEq

/-- Outcome of one iteration of the per-file loop of
`PreCommitHandler.run`. -/
inductive FileOutcome where
  | processed
  | skipped
  | errored
deriving DecidableEq

/-- One iteration of the per-file loop: the whole body sits in a `try`
whose catch increments `errors`.  `needsUpdate` is total; analysis, doc
generation and staging may throw; `saveCache` swallows its own failures. -/
def processFile (env : HookEnv) (f : String) : FileOutcome :=
  if env.needsUpdate f then
    match env.analyze f with
    | .error _ => .errored
    | .ok meta =>
      match env.generateToFile f meta with
      | .error _ => .errored
      | .ok _ =>
        match env.stageFile f with
        | .error _ => .errored
        | .ok _ => .processed
  else .skipped

/-- The per-file loop of `PreCommitHandler.run`, threading the three
counters. -/
def runLoop (env : HookEnv) : List String → PreCommitResult → PreCommitResult
  | [], r => r
  | f :: rest, r =>
    match processFile env f with
    | .processed => runLoop env rest ⟨r.processed + 1, r.skipped, r.errors⟩
    | .skipped => runLoop env rest ⟨r.processed, r.skipped + 1, r.errors⟩
    | .errored => runLoop env rest ⟨r.processed, r.skipped, r.errors + 1⟩

/-- The body of the outer `try` of `PreCommitHandler.run`: load config,
get staged files, early-return zeroes on an empty staged or filtered list,
construct the project and analyzer, then run the loop.  The loop itself
never throws (its body is fully guarded), so every possible throw happens
while all three counters are still zero. -/
def runBody (env : HookEnv) : Except String PreCommitResult := do
  let config ← env.loadConfig
  let staged ← env.getStagedFiles
  if staged.isEmpty then
    pure ⟨0, 0, 0⟩
  else
    let componentFiles := staged.filter config.watchMatch
    if componentFiles.isEmpty then
      pure ⟨0, 0, 0⟩
    else do
      let _ ← env.initProject
      pure (runLoop env componentFiles ⟨0, 0, 0⟩)

/-- `PreCommitHandler.run`: the outer catch turns any escaped exception
into a returned result with `errors` incremented (the counters are zero at
every possible throw point, so the caught result is `(0, 0, 1)`). -/
def run (env : HookEnv) : PreCommitResult :=
  match runBody env with
  | .ok r => r
  | .error _ => ⟨0, 0, 1⟩

/-- `PreCommitHandler.runSilent`: `try { await this.run(); } catch {}` —
delegate to `run` and swallow anything that escapes. -/
def runSilent (env : HookEnv) : Except String Unit :=
  match (Except.ok (run env) : Except String PreCommitResult) with
  | .ok _ => .ok ()
  | .error _ => .ok ()

/-! ### Comparison definitions taken from the wording of the spec

These two definitions are NOT translated from the sources; they render the
claim wording so that the claims comparing spec and code can be stated. -/

/-- Modelled from the spec: the staleness condition of claim C1 —
`needsUpdate` is true exactly when no entry exists, the version mismatches
(both folded into `loadCache` returning `none`), the digest differs, or
some live direct dependency exists on disk with a modification time
strictly greater than `lastParsed`.  Note the absence of the
snapshot-membership test that the code also performs. -/
def c1SpecStale (w : World) (p : String) : Bool :=
  match loadCache w p with
  | none => true
  | some c =>
    (hashFile w p != c.fileHash)
    || (extractImports w p).any fun i =>
        match w.statMtime i with
        | some mt => c.lastParsed < mt
        | none => false

/-- Modelled from the spec: the fingerprint contract of claim C7 —
`fingerprint(filePath)` yields the digest of the bytes of the file and
fails with `IOError` when the file cannot be read. -/
def fingerprintSpec (w : World) (p : String) : Except Unit String :=
  match w.read p with
  | some content => .ok (w.sha256 content)
  | none => .error ()

/-! ### Concrete states used by witnesses and counterexamples

The abstract SHA-256 digest is instantiated by prepending `h:` to the
content, which is injective and never produces the empty string, matching
the relevant properties of the real digest. -/

/-- A world with no readable files, no stats, no resolvable imports and an
empty cache store. -/
def emptyWorld : World where
  read := fun _ => none
  statMtime := fun _ => none
  resolvedImports := fun _ => none
  sha256 := fun s => "h:".append s
  store := fun _ => none

/-- A stored cache entry for the sample file `/p/F.tsx` whose content is
`body`, with the given dependency snapshot and analysis timestamp. -/
def entryF (deps : List DependencyCache) (lp : Nat) : CacheEntry where
  fileHash := "h:body"
  dependencies := deps
  struct := { name := "F", props := [] }
  lastParsed := lp
  version := cacheVersion

/-- `/p/F.tsx` is cached (digest matching, analyzed at time 10) with an
EMPTY dependency snapshot, while the live file now imports `/p/d.ts`,
which exists on disk with modification time 5 (older than the analysis
time). -/
def wSnapshotMiss : World where
  read := fun q => if q = "/p/F.tsx" then some "body" else none
  statMtime := fun q => if q = "/p/d.ts" then some 5 else none
  resolvedImports := fun q =>
    if q = "/p/F.tsx" then some [some "/p/d.ts"] else none
  sha256 := fun s => "h:".append s
  store := fun q => if q = "/p/F.tsx" then some (entryF [] 10) else none

/-- `/p/F.tsx` is cached with a matching digest, but every attempt to
re-derive its imports hits an internal parser or I/O error
(`resolvedImports` is `none` everywhere). -/
def wExtractErr : World where
  read := fun q => if q = "/p/F.tsx" then some "body" else none
  statMtime := fun _ => none
  resolvedImports := fun _ => none
  sha256 := fun s => "h:".append s
  store := fun q => if q = "/p/F.tsx" then some (entryF [] 10) else none

/-- `/p/F.tsx` is cached with a matching digest and a snapshot tracking
`/p/d.ts`, but that dependency has since been deleted from disk (its stat
fails). -/
def wMissingDep : World where
  read := fun q => if q = "/p/F.tsx" then some "body" else none
  statMtime := fun _ => none
  resolvedImports := fun q =>
    if q = "/p/F.tsx" then some [some "/p/d.ts"] else none
  sha256 := fun s => "h:".append s
  store := fun q =>
    if q = "/p/F.tsx" then
      some (entryF [{ path := "/p/d.ts", hash := "h:dep", mtime := 3 }] 10)
    else none

/-- `/p/F.tsx` imports `/p/d.ts`, which exists on disk with modification
time 100 — later than the save timestamp 50 used below (a future mtime
from clock skew or a copied file).  Nothing changes between the save and
the check. -/
def wFutureDep : World where
  read := fun q =>
    if q = "/p/F.tsx" then some "body"
    else if q = "/p/d.ts" then some "dep" else none
  statMtime := fun q => if q = "/p/d.ts" then some 100 else none
  resolvedImports := fun q =>
    if q = "/p/F.tsx" then some [some "/p/d.ts"] else none
  sha256 := fun s => "h:".append s
  store := fun _ => none

/-- Same as `wFutureDep` but the dependency modification time 40 is older
than the save timestamp 50. -/
def wPastDep : World where
  read := fun q =>
    if q = "/p/F.tsx" then some "body"
    else if q = "/p/d.ts" then some "dep" else none
  statMtime := fun q => if q = "/p/d.ts" then some 40 else none
  resolvedImports := fun q =>
    if q = "/p/F.tsx" then some [some "/p/d.ts"] else none
  sha256 := fun s => "h:".append s
  store := fun _ => none

/-- A hook environment with three staged component files, all stale, in
which exactly one file (`/bad.tsx`) fails analysis and everything else
succeeds. -/
def hookEnvOneBad : HookEnv where
  loadConfig := .ok { watchMatch := fun _ => true }
  getStagedFiles := .ok ["/a.tsx", "/bad.tsx", "/c.tsx"]
  initProject := .ok ()
  needsUpdate := fun _ => true
  analyze := fun f =>
    if f = "/bad.tsx" then .error "parse failure"
    else .ok { name := "X", filePath := f, props := [],
               dependencies := [], hasJSDoc := false }
  generateToFile := fun _ _ => .ok ()
  stageFile := fun _ => .ok ()

/-! ## Theorems -/

/-- The dependency loop returns true exactly when some live import exists
on disk and is either absent from the stored snapshot or newer than the
stored analysis time. -/
theorem dependencyStale_true_iff (w : World) (c : CacheEntry)
    (l : List String) :
    dependencyStale w c l = true ↔
      ∃ i ∈ l, ∃ mt, w.statMtime i = some mt ∧
        ((c.dependencies.find? fun d => d.path = i) = none
         ∨ c.lastParsed < mt) := by
  induction l with
  | nil => simp [dependencyStale]
  | cons imp rest ih =>
    cases hst : w.statMtime imp with
    | none =>
      simp only [dependencyStale, hst]
      rw [ih]
      constructor
      · rintro ⟨i, hi, hrest⟩
        exact ⟨i, List.mem_cons_of_mem _ hi, hrest⟩
      · rintro ⟨i, hi, mt, hmt, hcond⟩
        rcases List.mem_cons.1 hi with rfl | hi
        · rw [hst] at hmt; cases hmt
        · exact ⟨i, hi, mt, hmt, hcond⟩
    | some mt =>
      simp only [dependencyStale, hst]
      by_cases hcond :
          ((c.dependencies.find? fun d => d.path = imp) = none
           ∨ c.lastParsed < mt)
      · rw [if_pos hcond]
        simp only [true_iff]
        exact ⟨imp, List.mem_cons_self imp rest, mt, hst, hcond⟩
      · rw [if_neg hcond, ih]
        constructor
        · rintro ⟨i, hi, m, hm, hc⟩
          exact ⟨i, List.mem_cons_of_mem _ hi, m, hm, hc⟩
        · rintro ⟨i, hi, m, hm, hc⟩
          rcases List.mem_cons.1 hi with rfl | hi
          · rw [hst] at hm
            injection hm with hmm
            subst hmm
            exact absurd hc hcond
          · exact ⟨i, hi, m, hm, hc⟩

/-- Claim C1 (amended): needsUpdate(filePath) returns true exactly when
one of the following holds: no usable cache entry exists (missing,
unparseable, or version-mismatched, all folded into loadCache returning
none); the current content digest differs from the stored fileHash; or
some direct dependency, re-derived live from the current file, exists on
disk and is either ABSENT FROM THE STORED DEPENDENCY SNAPSHOT or has a
modification time strictly greater than the stored lastParsed timestamp.
The snapshot-membership disjunct is the one the original claim omits. -/
theorem c1_stale_characterization (w : World) (p : String) :
    needsUpdate w p = true ↔
      loadCache w p = none
      ∨ ∃ c, loadCache w p = some c ∧
          (hashFile w p ≠ c.fileHash
           ∨ ∃ i ∈ extractImports w p, ∃ mt, w.statMtime i = some mt ∧
               ((c.dependencies.find? fun d => d.path = i) = none
                ∨ c.lastParsed < mt)) := by
  cases hl : loadCache w p with
  | none => simp [needsUpdate, hl]
  | some c =>
    simp only [needsUpdate, hl]
    by_cases hh : hashFile w p ≠ c.fileHash
    · rw [if_pos hh]
      simp only [true_iff]
      exact Or.inr ⟨c, rfl, Or.inl hh⟩
    · rw [if_neg hh, dependencyStale_true_iff]
      constructor
      · intro hex
        exact Or.inr ⟨c, rfl, Or.inr hex⟩
      · rintro (h | ⟨c', hc', h⟩)
        · exact Option.noConfusion h
        · injection hc' with hcc
          subst hcc
          rcases h with hh' | hex
          · exact absurd hh' hh
          · exact hex

/-- Claim C1 counterexample: in `wSnapshotMiss` the entry exists with
matching version and digest, the only live dependency exists on disk with
modification time 5, not greater than the stored analysis time 10, yet
needsUpdate returns true — while the staleness condition of the claim as
stated (rendered by `c1SpecStale`) is false. -/
theorem c1_counterexample :
    needsUpdate wSnapshotMiss "/p/F.tsx" = true
    ∧ c1SpecStale wSnapshotMiss "/p/F.tsx" = false := by decide

/-- Claim C3: the code does NOT fail toward re-analysis on dependency
re-derivation errors.  In `wExtractErr` the cached digest matches and
every attempt to re-derive imports throws inside `extractImports`; the
source catches that error internally and returns the empty import list,
so needsUpdate trusts the cache and returns false, although the stated
policy (and the `on error force update` catch of needsUpdate itself,
which that inner catch makes unreachable) demands true. -/
theorem c3_extraction_error_trusts_cache :
    wExtractErr.resolvedImports "/p/F.tsx" = none
    ∧ needsUpdate wExtractErr "/p/F.tsx" = false := by decide

/-- Claim C4: a tracked direct dependency that no longer exists on disk is
skipped by the dependency check: whenever the entry loads, the digest
matches, and every live import that still stats cleanly is both present in
the snapshot and not newer than the analysis time, needsUpdate returns
false — imports whose stat fails are unconstrained and cannot by
themselves force an update. -/
theorem c4_missing_dependency_skipped (w : World) (p : String)
    (c : CacheEntry)
    (hload : loadCache w p = some c)
    (hhash : hashFile w p = c.fileHash)
    (hdeps : ∀ i ∈ extractImports w p,
      w.statMtime i = none
      ∨ ((c.dependencies.find? fun d => d.path = i) ≠ none
         ∧ (w.statMtime i).getD 0 ≤ c.lastParsed)) :
    needsUpdate w p = false := by
  simp only [needsUpdate, hload]
  rw [if_neg (by simp [hhash])]
  cases hds : dependencyStale w c (extractImports w p) with
  | false => rfl
  | true =>
    exfalso
    rcases (dependencyStale_true_iff w c _).1 hds with ⟨i, hi, mt, hmt, hcond⟩
    rcases hdeps i hi with hnone | ⟨hfind, hle⟩
    · rw [hnone] at hmt; cases hmt
    · rcases hcond with hf | hlt
      · exact absurd hf hfind
      · rw [hmt] at hle
        simp only [Option.getD_some] at hle
        omega

/-- Witness for claim C4: in `wMissingDep` the tracked dependency
`/p/d.ts` has been deleted from disk, and needsUpdate still returns
false. -/
theorem c4_missing_dependency_skipped_witness :
    needsUpdate wMissingDep "/p/F.tsx" = false :=
  c4_missing_dependency_skipped wMissingDep "/p/F.tsx"
    (entryF [{ path := "/p/d.ts", hash := "h:dep", mtime := 3 }] 10)
    (by decide) (by decide) (by decide)

/-- Claim C10: a live-derived dependency that exists on disk but is absent
from the stored snapshot forces needsUpdate to return true even when its
modification time does not exceed the stored analysis time. -/
theorem c10_snapshot_miss_forces_update (w : World) (p : String)
    (c : CacheEntry) (i : String) (mt : Nat)
    (hload : loadCache w p = some c)
    (hhash : hashFile w p = c.fileHash)
    (hi : i ∈ extractImports w p)
    (hstat : w.statMtime i = some mt)
    (hfind : (c.dependencies.find? fun d => d.path = i) = none)
    (_hmt : mt ≤ c.lastParsed) :
    needsUpdate w p = true := by
  simp only [needsUpdate, hload]
  rw [if_neg (by simp [hhash])]
  exact (dependencyStale_true_iff w c _).2 ⟨i, hi, mt, hstat, Or.inl hfind⟩

/-- Witness for claim C10 at the concrete state `wSnapshotMiss`. -/
theorem c10_snapshot_miss_forces_update_witness :
    needsUpdate wSnapshotMiss "/p/F.tsx" = true :=
  c10_snapshot_miss_forces_update wSnapshotMiss "/p/F.tsx" (entryF [] 10)
    "/p/d.ts" 5 (by decide) (by decide) (by decide) (by decide) (by decide)
    (by decide)

/-- saveCache does not change the file system, the parser, or the digest
function; it only writes the store. -/
theorem saveCache_read (w : World) (now : Nat) (p : String)
    (st : ComponentStructure) : (saveCache w now p st).read = w.read := by
  rw [saveCache]
  split <;> rfl

/-- saveCache leaves modification times unchanged. -/
theorem saveCache_statMtime (w : World) (now : Nat) (p : String)
    (st : ComponentStructure) :
    (saveCache w now p st).statMtime = w.statMtime := by
  rw [saveCache]
  split <;> rfl

/-- saveCache leaves import resolution unchanged. -/
theorem saveCache_resolvedImports (w : World) (now : Nat) (p : String)
    (st : ComponentStructure) :
    (saveCache w now p st).resolvedImports = w.resolvedImports := by
  rw [saveCache]
  split <;> rfl

/-- saveCache leaves the digest function unchanged. -/
theorem saveCache_sha256 (w : World) (now : Nat) (p : String)
    (st : ComponentStructure) :
    (saveCache w now p st).sha256 = w.sha256 := by
  rw [saveCache]
  split <;> rfl

/-- When every live import stats cleanly, saveCache writes the new entry
for the file: the current digest, the snapshot of every live import, the
given metadata, the save timestamp, and the running version. -/
theorem saveCache_store_self (w : World) (now : Nat) (p : String)
    (st : ComponentStructure)
    (hall : (extractImports w p).all (fun i => (w.statMtime i).isSome)
      = true) :
    (saveCache w now p st).store p =
      some { fileHash := hashFile w p,
             dependencies := (extractImports w p).map fun i =>
               { path := i, hash := hashFile w i,
                 mtime := (w.statMtime i).getD 0 },
             struct := st, lastParsed := now, version := cacheVersion } := by
  rw [saveCache]
  simp only [hall, if_true]

/-- A path that occurs in a list is found by the path lookup over the
snapshot built from that list. -/
theorem find?_snapshot_ne_none (w : World) (l : List String) (i : String)
    (hi : i ∈ l) :
    ((l.map fun j =>
        ({ path := j, hash := hashFile w j,
           mtime := (w.statMtime j).getD 0 } : DependencyCache)).find?
      fun d => d.path = i) ≠ none := by
  induction l with
  | nil => cases hi
  | cons a t ih =>
    simp only [List.map_cons, List.find?_cons]
    by_cases ha : a = i
    · simp [ha]
    · simp only [decide_eq_true_eq, ha, decide_False]
      rcases List.mem_cons.1 hi with rfl | hi'
      · exact absurd rfl ha
      · exact ih hi'

/-- Claim C2 (amended): for a file whose content and direct dependencies
are unchanged between the calls, save followed by needsUpdate returns
false — and keeps returning false against the same unchanged state —
PROVIDED every live-derived direct dependency exists on disk at save time
and its modification time does not exceed the save timestamp.  (A
dependency missing at save time makes the snapshot Promise.all reject so
no entry is written, and one with a modification time beyond the save
timestamp stays newer than lastParsed; either way needsUpdate stays
true, see the counterexample.) -/
theorem c2_save_then_fresh (w : World) (now : Nat) (p : String)
    (st : ComponentStructure)
    (h : ∀ i ∈ extractImports w p,
      (w.statMtime i).isSome = true ∧ (w.statMtime i).getD 0 ≤ now) :
    needsUpdate (saveCache w now p st) p = false := by
  have hall : (extractImports w p).all (fun i => (w.statMtime i).isSome)
      = true :=
    List.all_eq_true.2 fun i hi => (h i hi).1
  have himp : extractImports (saveCache w now p st) p = extractImports w p := by
    unfold extractImports
    rw [saveCache_resolvedImports]
  have hhq : ∀ q, hashFile (saveCache w now p st) q = hashFile w q := by
    intro q
    unfold hashFile
    rw [saveCache_read, saveCache_sha256]
  have hload : loadCache (saveCache w now p st) p =
      some { fileHash := hashFile w p,
             dependencies := (extractImports w p).map fun i =>
               { path := i, hash := hashFile w i,
                 mtime := (w.statMtime i).getD 0 },
             struct := st, lastParsed := now, version := cacheVersion } := by
    unfold loadCache
    rw [saveCache_store_self w now p st hall]
    simp
  simp only [needsUpdate, hload]
  rw [if_neg (by simp [hhq])]
  rw [himp]
  cases hds : dependencyStale (saveCache w now p st) _ (extractImports w p) with
  | false => rfl
  | true =>
    exfalso
    rcases (dependencyStale_true_iff _ _ _).1 hds with ⟨i, hi, mt, hmt, hcond⟩
    rw [saveCache_statMtime] at hmt
    rcases hcond with hfind | hlt
    · exact find?_snapshot_ne_none w (extractImports w p) i hi hfind
    · have hle := (h i hi).2
      rw [hmt] at hle
      simp only [Option.getD_some] at hle
      simp only at hlt
      omega

/-- Witness for claim C2 at the concrete state `wPastDep`: the only
dependency has modification time 40, the save happens at time 50, and the
subsequent check is fresh. -/
theorem c2_save_then_fresh_witness :
    needsUpdate (saveCache wPastDep 50 "/p/F.tsx" { name := "F", props := [] })
      "/p/F.tsx" = false :=
  c2_save_then_fresh wPastDep 50 "/p/F.tsx" { name := "F", props := [] }
    (by decide)

/-- Claim C2 counterexample: in `wFutureDep` nothing changes between the
save at time 50 and the check, the entry is really written, yet
needsUpdate returns true, because the dependency modification time 100
exceeds the stored save timestamp. -/
theorem c2_counterexample :
    ((saveCache wFutureDep 50 "/p/F.tsx"
        { name := "F", props := [] }).store "/p/F.tsx").isSome = true
    ∧ needsUpdate (saveCache wFutureDep 50 "/p/F.tsx"
        { name := "F", props := [] }) "/p/F.tsx" = true := by decide

/-- Claim C7 (amended): for every file path whose bytes cannot be read,
hashFile does not fail: the source catches the read error, logs it, and
returns the empty string as the digest.  (Since real digests are nonempty,
a caller comparing against a digest stored from a readable file still sees
a mismatch.) -/
theorem c7_unreadable_hash_empty (w : World) (p : String)
    (h : w.read p = none) : hashFile w p = "" := by
  simp [hashFile, h]

/-- Witness for claim C7: in `emptyWorld` no file is readable and the
digest of any path is the empty string. -/
theorem c7_unreadable_hash_empty_witness :
    emptyWorld.read "/p/g.ts" = none ∧ hashFile emptyWorld "/p/g.ts" = "" :=
  ⟨rfl, c7_unreadable_hash_empty emptyWorld "/p/g.ts" rfl⟩

/-- Claim C7 counterexample: on an unreadable path the fingerprint
contract of the spec (`fingerprintSpec`) demands an IOError, but the code
returns the value given by hashFile — the two disagree. -/
theorem c7_counterexample :
    emptyWorld.read "/p/g.ts" = none
    ∧ fingerprintSpec emptyWorld "/p/g.ts" = Except.error ()
    ∧ Except.ok (hashFile emptyWorld "/p/g.ts")
        ≠ fingerprintSpec emptyWorld "/p/g.ts" := by
  refine ⟨rfl, rfl, ?_⟩
  intro hcontra
  rw [show fingerprintSpec emptyWorld "/p/g.ts" = Except.error () from rfl]
    at hcontra
  exact Except.noConfusion hcontra

/-- A file whose staleness check, analysis, doc generation and staging all
succeed is counted as processed. -/
theorem processFile_eq_processed (env : HookEnv) (f : String)
    (m : ComponentMeta) (hu : env.needsUpdate f = true)
    (ha : env.analyze f = .ok m) (hg : env.generateToFile f m = .ok ())
    (hs : env.stageFile f = .ok ()) :
    processFile env f = .processed := by
  simp [processFile, hu, ha, hg, hs]

/-- A stale file whose analysis throws is counted as an error. -/
theorem processFile_eq_errored_of_analyze (env : HookEnv) (f : String)
    (e : String) (hu : env.needsUpdate f = true)
    (ha : env.analyze f = .error e) :
    processFile env f = .errored := by
  simp [processFile, hu, ha]

/-- The per-file loop distributes over list append. -/
theorem runLoop_append (env : HookEnv) (l₁ l₂ : List String)
    (r : PreCommitResult) :
    runLoop env (l₁ ++ l₂) r = runLoop env l₂ (runLoop env l₁ r) := by
  induction l₁ generalizing r with
  | nil => rfl
  | cons f t ih =>
    cases hpf : processFile env f with
    | processed =>
      simp only [List.cons_append, runLoop, hpf]
      exact ih _
    | skipped =>
      simp only [List.cons_append, runLoop, hpf]
      exact ih _
    | errored =>
      simp only [List.cons_append, runLoop, hpf]
      exact ih _

/-- A run over files that are all processed adds the list length to the
processed counter and nothing else. -/
theorem runLoop_all_processed (env : HookEnv) (l : List String)
    (a b c : Nat)
    (h : ∀ f ∈ l, processFile env f = .processed) :
    runLoop env l ⟨a, b, c⟩ = ⟨a + l.length, b, c⟩ := by
  induction l generalizing a with
  | nil => simp [runLoop]
  | cons f t ih =>
    have hf := h f (List.mem_cons_self f t)
    simp only [runLoop, hf]
    rw [ih _ fun g hg => h g (List.mem_cons_of_mem f hg)]
    simp only [PreCommitResult.mk.injEq, List.length_cons]
    exact ⟨by omega, trivial, trivial⟩

/-- Claim C5: in a batch of N candidate files, all stale, of which exactly
one fails analysis and the rest analyze, generate and stage successfully,
the per-file loop attempts every file and reports errors 1 and processed
N-1 (and skipped 0) in its aggregate result. -/
theorem c5_batch_isolation (env : HookEnv) (l₁ : List String) (b : String)
    (l₂ : List String)
    (hgood : ∀ f ∈ l₁ ++ l₂, env.needsUpdate f = true ∧
      ∃ m, env.analyze f = .ok m ∧ env.generateToFile f m = .ok ()
        ∧ env.stageFile f = .ok ())
    (hbadU : env.needsUpdate b = true)
    (hbadA : ∃ e, env.analyze b = .error e) :
    runLoop env (l₁ ++ b :: l₂) ⟨0, 0, 0⟩
      = ⟨l₁.length + l₂.length, 0, 1⟩ := by
  have h₁ : ∀ f ∈ l₁, processFile env f = .processed := by
    intro f hf
    rcases hgood f (List.mem_append_left _ hf) with ⟨hu, m, ha, hg, hs⟩
    exact processFile_eq_processed env f m hu ha hg hs
  have h₂ : ∀ f ∈ l₂, processFile env f = .processed := by
    intro f hf
    rcases hgood f (List.mem_append_right _ hf) with ⟨hu, m, ha, hg, hs⟩
    exact processFile_eq_processed env f m hu ha hg hs
  rcases hbadA with ⟨e, he⟩
  rw [runLoop_append, runLoop_all_processed env l₁ _ _ _ h₁]
  have hb := processFile_eq_errored_of_analyze env b e hbadU he
  simp only [runLoop, hb]
  rw [runLoop_all_processed env l₂ _ _ _ h₂]
  simp only [PreCommitResult.mk.injEq]
  exact ⟨by omega, trivial, trivial⟩

/-- Witness for claim C5 at the concrete environment `hookEnvOneBad`:
three stale files, one unparseable, give processed 2, skipped 0,
errors 1. -/
theorem c5_batch_isolation_witness :
    runLoop hookEnvOneBad ["/a.tsx", "/bad.tsx", "/c.tsx"] ⟨0, 0, 0⟩
      = ⟨2, 0, 1⟩ := by
  have hgood : ∀ f ∈ ["/a.tsx"] ++ ["/c.tsx"],
      hookEnvOneBad.needsUpdate f = true ∧
      ∃ m, hookEnvOneBad.analyze f = .ok m
        ∧ hookEnvOneBad.generateToFile f m = .ok ()
        ∧ hookEnvOneBad.stageFile f = .ok () := by
    intro f hf
    rcases List.mem_append.1 hf with h | h
    · rcases List.mem_singleton.1 h with rfl
      exact ⟨rfl, { name := "X", filePath := "/a.tsx", props := [],
                    dependencies := [], hasJSDoc := false }, rfl, rfl, rfl⟩
    · rcases List.mem_singleton.1 h with rfl
      exact ⟨rfl, { name := "X", filePath := "/c.tsx", props := [],
                    dependencies := [], hasJSDoc := false }, rfl, rfl, rfl⟩
  exact c5_batch_isolation hookEnvOneBad ["/a.tsx"] "/bad.tsx" ["/c.tsx"]
    hgood rfl ⟨"parse failure", rfl⟩

/-- Claim C6: for every input state — the configuration load may throw,
the staged list may be empty, analysis of any file may fail — runSilent
returns normally: the outer catch of run turns every escaped exception
into a counted result, and runSilent swallows anything that remains. -/
theorem c6_run_silent_never_throws (env : HookEnv) :
    runSilent env = Except.ok () := rfl

/-- Claim C8 (amended): every entry of the dependencies list produced by
extractDependencies is the resolved target of some import declaration of
the file and is project-local (its path contains neither node_modules nor
the @types marker); entries appear in declaration order and are NOT
de-duplicated — importing the same module through two import declarations
yields a duplicated entry (see the counterexample). -/
theorem c8_dependencies_local (resolutions : List (Option String)) :
    ∀ q ∈ extractDependencies resolutions,
      some q ∈ resolutions ∧ isLocalPath q = true := by
  induction resolutions with
  | nil =>
    intro q hq
    simp [extractDependencies, collectLocalImports] at hq
  | cons o rest ih =>
    intro q hq
    cases o with
    | none =>
      have hq' : q ∈ extractDependencies rest := by
        simpa [extractDependencies, collectLocalImports] using hq
      rcases ih q hq' with ⟨hmem, hloc⟩
      exact ⟨List.mem_cons_of_mem _ hmem, hloc⟩
    | some a =>
      by_cases hl : isLocalPath a = true
      · have hq' : q ∈ a :: extractDependencies rest := by
          simpa [extractDependencies, collectLocalImports, hl] using hq
        rcases List.mem_cons.1 hq' with rfl | hq''
        · exact ⟨List.mem_cons_self _ _, hl⟩
        · rcases ih q hq'' with ⟨hmem, hloc⟩
          exact ⟨List.mem_cons_of_mem _ hmem, hloc⟩
      · have hq' : q ∈ extractDependencies rest := by
          simpa [extractDependencies, collectLocalImports, hl] using hq
        rcases ih q hq' with ⟨hmem, hloc⟩
        exact ⟨List.mem_cons_of_mem _ hmem, hloc⟩

/-- Witness for claim C8: a resolved local import is reported together
with its locality. -/
theorem c8_dependencies_local_witness :
    some "/proj/a.ts" ∈ [some "/proj/a.ts", none]
    ∧ isLocalPath "/proj/a.ts" = true :=
  c8_dependencies_local [some "/proj/a.ts", none] "/proj/a.ts" (by decide)

/-- Claim C8 counterexample: two import declarations resolving to the same
local file produce a dependencies list with a duplicate — the result is
not a set. -/
theorem c8_counterexample :
    extractDependencies [some "/proj/a.ts", some "/proj/a.ts"]
      = ["/proj/a.ts", "/proj/a.ts"]
    ∧ ¬ (extractDependencies
          [some "/proj/a.ts", some "/proj/a.ts"]).Nodup := by decide

/-- The first element of a list satisfying the test, with everything
before it failing the test, is what find? returns. -/
theorem find?_first_match (pred : String → Bool) (pre : List String)
    (n : String) (post : List String)
    (hpre : ∀ m ∈ pre, pred m = false) (hn : pred n = true) :
    (pre ++ n :: post).find? pred = some n := by
  induction pre with
  | nil =>
    rw [List.nil_append]
    exact List.find?_cons_of_pos _ hn
  | cons a t ih =>
    have ha : pred a = false := hpre a (List.mem_cons_self a t)
    rw [List.cons_append, List.find?_cons_of_neg _ (by simp [ha])]
    exact ih fun m hm => hpre m (List.mem_cons_of_mem a hm)

/-- Claim C9: the extracted component name is the first exported
identifier (in the order the exported declarations are iterated) passing
the component-name test — the leading-capital pattern of the source, with
the key default skipped — and when no exported identifier passes, it is
the base name of the file with its (ts/tsx/js/jsx) extension removed. -/
theorem c9_name_resolution (exports : List String) (filePath : String) :
    ((∀ n ∈ exports, isComponentName n = false) →
      extractComponentName exports filePath
        = stripKnownExt (basename filePath))
    ∧ ∀ pre n post, exports = pre ++ n :: post →
        isComponentName n = true →
        (∀ m ∈ pre, isComponentName m = false) →
        extractComponentName exports filePath = n := by
  constructor
  · intro hall
    have hnone : exports.find? isComponentName = none :=
      List.find?_eq_none.2 fun x hx => by simp [hall x hx]
    rw [extractComponentName, hnone]
  · intro pre n post heq hn hpre
    subst heq
    rw [extractComponentName,
      find?_first_match isComponentName pre n post hpre hn]

/-- Witness for claim C9: the first capitalized export wins over later
ones and over lowercase ones, and without a qualifying export the name
falls back to the base name without its extension. -/
theorem c9_name_resolution_witness :
    extractComponentName ["default", "foo", "Button", "Zed"] "/x/Card.tsx"
      = "Button"
    ∧ extractComponentName ["foo"] "/x/Card.tsx" = "Card" := by
  constructor
  · exact (c9_name_resolution ["default", "foo", "Button", "Zed"]
      "/x/Card.tsx").2 ["default", "foo"] "Button" ["Zed"] rfl (by decide)
      (by decide)
  · have h := (c9_name_resolution ["foo"] "/x/Card.tsx").1 (by decide)
    rw [h]
    decide

end CodeAnchor
